import Mathlib

set_option maxRecDepth 100000

/-!
Verification of the gxdocgen signature-resolution core.

The Go sources are shallowly embedded over `List Char`: each Lean
definition mirrors one Go function (from `internal/xpz/signature.go`,
`internal/parser/parser.go` and the XPZ extractor), with Go's `strings`
helpers and the pre-compiled regular expressions modelled explicitly.
-/

namespace GxDocGen

/-- Strings are modelled as lists of characters. -/
abbrev Str := List Char

/-- Coerce a Lean string literal into the model. -/
def str (s : String) : Str := s.data

/-- The character class trimmed by Go's `strings.TrimSpace` /
`strings.Fields` (ASCII fragment of `unicode.IsSpace`). -/
def isSpaceGo (c : Char) : Bool :=
  c = ' ' || c = '\t' || c = '\n' || c = '\r' || c.toNat = 11 || c.toNat = 12

/-- The character class of the regexp escape for whitespace in RE2:
tab, newline, form feed, carriage return and space. -/
def isSpaceRe (c : Char) : Bool :=
  c = ' ' || c = '\t' || c = '\n' || c = '\r' || c.toNat = 12

/-- A word character for RE2 word boundaries: `[0-9A-Za-z_]`. -/
def isWordChar (c : Char) : Bool := c.isAlphanum || c = '_'

/-- `strings.TrimSpace`. -/
def goTrim (s : Str) : Str :=
  ((s.dropWhile isSpaceGo).reverse.dropWhile isSpaceGo).reverse

/-- Drop a trailing run of regexp whitespace (the trailing greedy
whitespace group before a closing delimiter). -/
def dropTrailRe (s : Str) : Str :=
  (s.reverse.dropWhile isSpaceRe).reverse

/-- `needle` occurs at the head of the second argument. -/
def leadsWith : Str → Str → Bool
  | [], _ => true
  | _ :: _, [] => false
  | p :: ps, c :: cs => p = c && leadsWith ps cs

/-- Case-insensitive (ASCII) variant of `leadsWith`. -/
def ciLeadsWith : Str → Str → Bool
  | [], _ => true
  | _ :: _, [] => false
  | p :: ps, c :: cs => p.toLower = c.toLower && ciLeadsWith ps cs

/-- Index of the first occurrence of `needle` (Go `strings.Index`). -/
def findSub (needle : Str) : Str → Option Nat
  | [] => if needle = [] then some 0 else none
  | c :: t => if leadsWith needle (c :: t) then some 0 else (findSub needle t).map (· + 1)

/-- Split at the first occurrence of a character: `some (before, after)`
with the separator removed, or `none` when the character is absent. -/
def chopFirst (c : Char) : Str → Option (Str × Str)
  | [] => none
  | x :: t =>
    if x = c then some ([], t)
    else (chopFirst c t).map (fun p => (x :: p.1, p.2))

/-- Index of the first occurrence of a character. -/
def idxOf (c : Char) (s : Str) : Option Nat := s.findIdx? (· = c)

/-- Index of the last occurrence of a character (Go `strings.LastIndex`
for a one-character needle). -/
def lastIdxOf (c : Char) (s : Str) : Option Nat :=
  (idxOf c s.reverse).map (fun j => s.length - 1 - j)

/-- Go `strings.Split` with a one-character separator. -/
def splitOnChar (sep : Char) (s : Str) : List Str :=
  let r := s.foldr
    (fun c acc => if c = sep then ([], acc.1 :: acc.2) else (c :: acc.1, acc.2))
    (([], []) : Str × List Str)
  r.1 :: r.2

/-- Go `strings.Join`. -/
def joinSep (sep : Str) : List Str → Str
  | [] => []
  | [x] => x
  | x :: y :: rest => x ++ sep ++ joinSep sep (y :: rest)

/-- Go `strings.Fields`: split around runs of whitespace, no empty fields. -/
def fieldsGo (s : Str) : List Str :=
  let r := s.foldr
    (fun c acc =>
      if isSpaceGo c then (([] : Str), if acc.1 = [] then acc.2 else acc.1 :: acc.2)
      else (c :: acc.1, acc.2))
    (([], []) : Str × List Str)
  if r.1 = [] then r.2 else r.1 :: r.2

/-- Go `strings.ToUpper` (ASCII fragment). -/
def upperStr (s : Str) : Str := s.map Char.toUpper

/-- Go `strings.ToLower` (ASCII fragment). -/
def lowerStr (s : Str) : Str := s.map Char.toLower

/-! ## Data model (`internal/model`) -/

/-- `model.ParameterDoc` (`Type'` stands for the Go field `Type`, whose
name Lean reserves). -/
structure ParameterDoc where
  Name : Str := []
  Direction : Str := []
  Type' : Str := []
  Description : Str := []
deriving DecidableEq, Repr

/-- `xpz.Signature`.  `Parameters` is an `Option` because Go
distinguishes a nil slice from an empty one and the resolver's fallback
logic branches on exactly that distinction. -/
structure Signature where
  Parameters : Option (List ParameterDoc) := none
  RawSignature : Str := []
  ExtractionMode : Str := []
deriving DecidableEq, Repr

/-- `model.DocComment`. -/
structure DocComment where
  Package : Str := []
  Summary : Str := []
  Description : Str := []
  Author : Str := []
  Created : Str := []
  Return : Str := []
  Tags : List Str := []
  Deprecated : Bool := false
  DeprecationNote : Str := []
  Parameters : List ParameterDoc := []
  IsAutoGenerated : Bool := false
deriving DecidableEq, Repr

/-! ## Type Normalizer (`cleanType`, signature.go) -/

/-- `cleanType` strips GeneXus type qualifiers (`bas:`, `bc:`, `sdt:`):
trim; when the text contains `:` and does not start with `Attribute:`,
keep what follows the first `:`, and when that holds a comma keep only
the trimmed text before it. -/
def cleanType (rawType : Str) : Str :=
  match chopFirst ':' (goTrim rawType) with
  | none => goTrim rawType
  | some (_, post) =>
    if leadsWith (str "Attribute:") (goTrim rawType) then goTrim rawType
    else
      match chopFirst ',' post with
      | none => post
      | some (a, _) => goTrim a


/-! ## Signature Resolver (signature.go)

The pre-compiled regular expressions are modelled as explicit scanners
with RE2's leftmost / preference semantics:
  parmRegex       = `(?i)parm\s*\((.*?)\)`
  paramRegex      = `(?i)^(in|out|inout)\s*:\s*&(.+)$`
  directionRegex  = `(?i)\b(in|out|inout)\s*:`
  directionMatch  = `(?i)\b(in|out|inout)`
  colonSpaceRegex = `:\s+&`
  commaSpaceRegex = `,\s*`
-/

/-- Match `paramRegex` restricted to one alternative `dir` of the
direction group, anchored at both ends: `dir` case-insensitively, then
whitespace, `:`, whitespace, `&` and a non-empty remainder without a
newline (the anchored dot-plus group).  Yields the matched direction
text and the raw name group. -/
def paramMatchDir (dir s : Str) : Option (Str × Str) :=
  if ciLeadsWith dir s then
    match (s.drop dir.length).dropWhile isSpaceRe with
    | [] => none
    | c :: rest2 =>
      if c = ':' then
        match rest2.dropWhile isSpaceRe with
        | [] => none
        | a :: n =>
          if a = '&' && !n.isEmpty && n.all (· ≠ '\n') then
            some (s.take dir.length, n)
          else none
      else none
  else none

/-- `paramRegex` applied to a whole segment: the alternatives are tried
in the order they are written (`in`, `out`, `inout`), as RE2 does. -/
def paramMatch (s : Str) : Option (Str × Str) :=
  match paramMatchDir (str "in") s with
  | some r => some r
  | none =>
    match paramMatchDir (str "out") s with
    | some r => some r
    | none => paramMatchDir (str "inout") s

/-- One comma segment of a `parm(...)` argument list, as the loop body
of `parseParmString` treats it: trim, skip an empty segment, and turn a
`paramRegex` match into a `ParameterDoc` with the direction upper-cased
and the name group trimmed. -/
def segParam (part : Str) : Option ParameterDoc :=
  let p := goTrim part
  if p = [] then none
  else
    match paramMatch p with
    | some (d, n) => some { Name := goTrim n, Direction := upperStr d }
    | none => none

/-- Try `parmRegex` at the head of the text: `parm` case-insensitively,
greedy whitespace, `(`, then the shortest run of non-newline characters
up to a `)`.  Yields the captured argument list and the match length. -/
def parmMatchAt (s : Str) : Option (Str × Nat) :=
  if ciLeadsWith (str "parm") s then
    let afterWord := s.drop 4
    let ws := afterWord.takeWhile isSpaceRe
    match afterWord.drop ws.length with
    | [] => none
    | c :: tail =>
      if c = '(' then
        let inner := tail.takeWhile (fun ch => ch ≠ ')' && ch ≠ '\n')
        match tail.drop inner.length with
        | ')' :: _ => some (inner, 4 + ws.length + 1 + inner.length + 1)
        | _ => none
      else none
  else none

/-- `parmRegex.FindStringSubmatch`: the capture of the leftmost match. -/
def parmFindList : Str → Option Str
  | [] => none
  | c :: t =>
    match parmMatchAt (c :: t) with
    | some (cap, _) => some cap
    | none => parmFindList t

/-- The reference scanner of Go's `Regexp.Expand` (regexp.extract): a
leading `name` or `{name}` right after a `$`, where a name is the
longest run of letters, digits and underscores.  Yields the name and
the rest of the template; `none` for a malformed reference (empty
name, or a brace with no closing `}` right after the name), which Go
renders as a raw `$`. -/
def extractRef (s : Str) : Option (Str × Str) :=
  match s with
  | '{' :: s2 =>
    let name := s2.takeWhile isWordChar
    if name = [] then none
    else
      match s2.drop name.length with
      | '}' :: rest => some (name, rest)
      | _ => none
  | _ =>
    let name := s.takeWhile isWordChar
    if name = [] then none
    else some (name, s.drop name.length)

/-- What a reference expands to for `parmRegex`, whose only groups are
the whole match (`g0`) and one unnamed capture (`g1`): Go parses an
all-digit name without a leading zero as a group index (out-of-range
indices expand to nothing), and looks every other name up among the
pattern's named groups — `parmRegex` has none, so those expand to
nothing too.  Hence only `0` and `1` produce text. -/
def groupRef (name g0 g1 : Str) : Str :=
  if name = str "0" then g0 else if name = str "1" then g1 else []

/-- Go's `Expand` over a replacement template: literal text is copied;
`$$` is a literal `$`; `$name` and `${name}` become the referenced
group's text; a malformed reference keeps the `$` as raw text.  The
fuel argument only bounds the recursion; every step consumes at least
one character, so `template.length` steps always suffice. -/
def expandGo (fuel : Nat) (g0 g1 template : Str) : Str :=
  match fuel, template with
  | 0, template => template
  | fuel + 1, template =>
    match template with
    | [] => []
    | c :: t =>
      if c = '$' then
        if leadsWith (str "$") t then '$' :: expandGo fuel g0 g1 (t.drop 1)
        else
          match extractRef t with
          | none => '$' :: expandGo fuel g0 g1 t
          | some (name, rest) => groupRef name g0 g1 ++ expandGo fuel g0 g1 rest
      else c :: expandGo fuel g0 g1 t

def expandRepl (g0 g1 template : Str) : Str := expandGo template.length g0 g1 template

/-- `parmRegex.ReplaceAllString`: each match is replaced by the
template expanded with that match's own groups (`Expand` semantics for
`$` signs — a template without `$` is substituted literally).  The
fuel argument only bounds the recursion; every match consumes at least
one character, so `s.length` steps always suffice. -/
def replaceParmAllGo (fuel : Nat) (s repl : Str) : Str :=
  match fuel, s with
  | 0, s => s
  | fuel + 1, s =>
    match s with
    | [] => []
    | c :: t =>
      match parmMatchAt (c :: t) with
      | some (cap, len) =>
        expandRepl ((c :: t).take len) cap repl ++
          replaceParmAllGo fuel ((c :: t).drop len) repl
      | none => c :: replaceParmAllGo fuel t repl

def replaceParmAll (s repl : Str) : Str := replaceParmAllGo s.length s repl

/-- The alternative of `directionRegex` matching at the head of the
text, boundary already checked: the direction text and the length of
the whole match (direction, whitespace and colon). -/
def dirTryAt (s : Str) : Option (Str × Nat) :=
  let tryDir := fun (dir : Str) =>
    if ciLeadsWith dir s then
      let ws := (s.drop dir.length).takeWhile isSpaceRe
      match (s.drop dir.length).drop ws.length with
      | ':' :: _ => some (s.take dir.length, dir.length + ws.length + 1)
      | _ => none
    else none
  match tryDir (str "in") with
  | some r => some r
  | none =>
    match tryDir (str "out") with
    | some r => some r
    | none => tryDir (str "inout")

/-- The replacement `directionRegex`'s callback produces: the first
`directionMatch` hit inside the matched text, lower-cased, plus the
colon.  Because the alternatives are tried in written order, a matched
`inout` yields `in`. -/
def dirRepl (d : Str) : Str :=
  (if ciLeadsWith (str "in") d then str "in" else str "out") ++ str ":"

/-- `directionRegex.ReplaceAllStringFunc`: scan with a word-boundary
flag for the position before the cursor. -/
def dirReplaceAux (fuel : Nat) (prevWord : Bool) (s : Str) : Str :=
  match fuel, s with
  | 0, s => s
  | fuel + 1, s =>
    match s with
    | [] => []
    | c :: t =>
      if !prevWord && isWordChar c then
        match dirTryAt (c :: t) with
        | some (d, len) => dirRepl d ++ dirReplaceAux fuel false ((c :: t).drop len)
        | none => c :: dirReplaceAux fuel (isWordChar c) t
      else c :: dirReplaceAux fuel (isWordChar c) t

def dirReplaceAll (s : Str) : Str := dirReplaceAux s.length false s

/-- `colonSpaceRegex.ReplaceAllString(s, ":&")`: collapse `: … &` (one
or more whitespace characters) to `:&`. -/
def colonSpaceGo (fuel : Nat) (s : Str) : Str :=
  match fuel, s with
  | 0, s => s
  | fuel + 1, s =>
    match s with
    | [] => []
    | c :: t =>
      if c = ':' then
        let ws := t.takeWhile isSpaceRe
        if ws.isEmpty then c :: colonSpaceGo fuel t
        else if leadsWith (str "&") (t.drop ws.length) then
          ':' :: '&' :: colonSpaceGo fuel (t.drop (ws.length + 1))
        else c :: colonSpaceGo fuel t
      else c :: colonSpaceGo fuel t

def colonSpaceAll (s : Str) : Str := colonSpaceGo s.length s

/-- `commaSpaceRegex.ReplaceAllString(s, ", ")`: each comma and the
whitespace run after it become a comma and one space. -/
def commaSpaceGo (fuel : Nat) (s : Str) : Str :=
  match fuel, s with
  | 0, s => s
  | fuel + 1, s =>
    match s with
    | [] => []
    | c :: t =>
      if c = ',' then
        ',' :: ' ' :: commaSpaceGo fuel (t.drop (t.takeWhile isSpaceRe).length)
      else c :: commaSpaceGo fuel t

def commaSpaceAll (s : Str) : Str := commaSpaceGo s.length s

/-- Filter out commented lines: split on newlines, drop every line whose
trimmed text begins with `//`, join the rest back with newlines. -/
def stripCommentLines (source : Str) : Str :=
  joinSep (str "\n")
    ((splitOnChar '\n' source).filter (fun line => !leadsWith (str "//") (goTrim line)))

/-- The zero `Signature` Go returns from a failed strategy: nil
parameter slice, empty strings. -/
def emptySig : Signature := {}

/-- `parseParmString`: parse a `Parm(...)` declaration out of rules
source text.  A Go nil parameter slice is `none`; the loop's appends
leave the slice nil exactly when no segment matches. -/
def parseParmString (source procedureName : Str) : Signature :=
  match parmFindList (stripCommentLines source) with
  | none => emptySig
  | some paramsStr =>
    if goTrim paramsStr = [] then
      { Parameters := some [], RawSignature := procedureName ++ str "();" }
    else
      { Parameters :=
          if (splitOnChar ',' paramsStr).filterMap segParam = [] then none
          else some ((splitOnChar ',' paramsStr).filterMap segParam),
        RawSignature :=
          goTrim (commaSpaceAll (colonSpaceAll (dirReplaceAll
            (replaceParmAll (stripCommentLines source)
              (procedureName ++ str "(" ++ paramsStr ++ str ")"))))) }

/-- `buildRawSignature`: the normalized call text rebuilt from a
parameter list. -/
def buildRawSignature (procedureName : Str) (params : List ParameterDoc) : Str :=
  if params = [] then procedureName ++ str "();"
  else
    procedureName ++ str "(" ++
      joinSep (str ", ")
        (params.map (fun p => lowerStr p.Direction ++ str ":&" ++ p.Name)) ++
      str ");"

/-! ## The object subtree

`ExtractProcedureSignature` reads an object's XML subtree through
xmlquery.  The embedding keeps just what those XPath queries reach: the
inner text of the rules part's `Source` node (when that node exists)
and the `Variable` nodes of the variables part (when that part exists),
each variable carrying its `Name` attribute and its
`Properties/Property` name/value pairs.  `GetText` trims the inner text
it returns; attribute and property reads are trimmed at the use sites
that go through `GetText`/`GetAttrDirect`. -/

/-- One `Variable` element: the `Name` attribute (raw) and the
`(Name, Value)` inner texts of its properties (raw). -/
structure VarNode where
  nameAttr : Str := []
  props : List (Str × Str) := []
deriving DecidableEq, Repr

/-- An object subtree as the resolver queries it. -/
structure ObjNode where
  rulesSource : Option Str := none
  variablesPart : Option (List VarNode) := none
deriving DecidableEq, Repr

/-- `GetText(objNode, "//Part[@type=rules]/Source")`: empty both when
the node is absent and when its inner text trims to nothing. -/
def getRulesSource (obj : ObjNode) : Str :=
  match obj.rulesSource with
  | none => []
  | some s => goTrim s

/-- `extractFromParmRule`. -/
def extractFromParmRule (obj : ObjNode) (procedureName : Str) : Signature :=
  if getRulesSource obj = [] then emptySig
  else parseParmString (getRulesSource obj) procedureName

/-- The per-variable property scan of `extractFromIsParmVariables`:
fold `(isParm, name, varType, description)` over the property list in
document order.  Property names and values are read through `GetText`,
hence trimmed. -/
def isParmScan (props : List (Str × Str)) : Bool × Str × Str × Str :=
  props.foldl
    (fun acc pr =>
      let propName := goTrim pr.1
      let propValue := goTrim pr.2
      if propName = str "IsParm" then
        (propValue = str "True" || propValue = str "true", acc.2.1, acc.2.2.1, acc.2.2.2)
      else if propName = str "Name" then
        (acc.1, propValue, acc.2.2.1, acc.2.2.2)
      else if propName = str "Description" then
        (acc.1, acc.2.1, acc.2.2.1, propValue)
      else if propName = str "ATTCUSTOMTYPE" then
        (acc.1, acc.2.1, cleanType propValue, acc.2.2.2)
      else if propName = str "idBasedOn" then
        if acc.2.2.1 = [] && leadsWith (str "Attribute:") propValue then
          (acc.1, acc.2.1, str "-", acc.2.2.2)
        else acc
      else acc)
    (false, [], [], [])

/-- The parameters `extractFromIsParmVariables` collects: variables
whose scan set the `IsParm` flag and a non-empty name, direction
defaulted to `IN`. -/
def isParmParams (vars : List VarNode) : List ParameterDoc :=
  vars.filterMap (fun v =>
    let r := isParmScan v.props
    if r.1 && r.2.1 ≠ [] then
      some { Name := r.2.1, Direction := str "IN", Type' := r.2.2.1,
             Description := r.2.2.2 }
    else none)

/-- `extractFromIsParmVariables`. -/
def extractFromIsParmVariables (obj : ObjNode) (procedureName : Str) : Signature :=
  match obj.variablesPart with
  | none => emptySig
  | some vars =>
    if isParmParams vars = [] then emptySig
    else { Parameters := some (isParmParams vars),
           RawSignature := buildRawSignature procedureName (isParmParams vars) }

/-- `ExtractProcedureSignature`: ParmRule, then IsParm variables, then
the empty signature. -/
def ExtractProcedureSignature (obj : ObjNode) (procedureName : Str) : Signature :=
  if (extractFromParmRule obj procedureName).Parameters ≠ none then
    { extractFromParmRule obj procedureName with ExtractionMode := str "ParmRule" }
  else if (extractFromIsParmVariables obj procedureName).Parameters ≠ none then
    { extractFromIsParmVariables obj procedureName with ExtractionMode := str "IsParm" }
  else
    { Parameters := some [], RawSignature := procedureName ++ str "();",
      ExtractionMode := str "None" }

/-! ## Metadata Enricher (`EnrichWithVariableMetadata`, signature.go) -/

/-- Insert-or-replace into an association list: the semantics of a Go
map write (one entry per key, the last write wins). -/
def upsert (m : List (Str × Str × Str)) (k : Str) (v : Str × Str) :
    List (Str × Str × Str) :=
  match m with
  | [] => [(k, v)]
  | e :: rest => if e.1 = k then (k, v) :: rest else e :: upsert rest k v

/-- Association-list lookup (a Go map read). -/
def lookupMeta (m : List (Str × Str × Str)) (k : Str) : Option (Str × Str) :=
  match m with
  | [] => none
  | e :: rest => if e.1 = k then some e.2 else lookupMeta rest k

/-- The per-variable property scan of `EnrichWithVariableMetadata`:
`(varType, description)` from `Description` / `ATTCUSTOMTYPE` /
`idBasedOn`, values trimmed by `GetText`. -/
def enrichScan (props : List (Str × Str)) : Str × Str :=
  props.foldl
    (fun acc pr =>
      let propName := goTrim pr.1
      let propValue := goTrim pr.2
      if propName = str "Description" then (acc.1, propValue)
      else if propName = str "ATTCUSTOMTYPE" then (cleanType propValue, acc.2)
      else if propName = str "idBasedOn" then
        if acc.1 = [] && leadsWith (str "Attribute:") propValue then
          (str "-", acc.2)
        else acc
      else acc)
    ([], [])

/-- The variable-metadata map of `EnrichWithVariableMetadata`, keyed by
the `Name` attribute (`GetAttrDirect` trims it; empty names are
skipped). -/
def buildVarMap (vars : List VarNode) : List (Str × Str × Str) :=
  vars.foldl
    (fun m v =>
      let name := goTrim v.nameAttr
      if name = [] then m else upsert m name (enrichScan v.props))
    []

/-- The variable map `EnrichWithVariableMetadata` consults: empty when
the variables part is absent. -/
def varMapOf (obj : ObjNode) : List (Str × Str × Str) :=
  match obj.variablesPart with
  | none => []
  | some vars => buildVarMap vars

/-- The per-parameter fill of `EnrichWithVariableMetadata`: only empty
`Type`/`Description` fields are written. -/
def enrichOne (m : List (Str × Str × Str)) (p : ParameterDoc) : ParameterDoc :=
  match lookupMeta m p.Name with
  | none => p
  | some meta =>
    { p with
      Type' := if p.Type' = [] then meta.1 else p.Type',
      Description := if p.Description = [] then meta.2 else p.Description }

/-- `EnrichWithVariableMetadata`. -/
def EnrichWithVariableMetadata (params : List ParameterDoc) (obj : ObjNode) :
    List ParameterDoc :=
  match obj.variablesPart with
  | none => params
  | some vars => params.map (enrichOne (buildVarMap vars))

/-! ## Annotation Comment Parser (`internal/parser/parser.go`) -/

/-- Go `strings.SplitN(value, sep, 2)` folded into an option: the text
before and after the first occurrence of the separator. -/
def chopFirstSub (sep : Str) (value : Str) : Option (Str × Str) :=
  (findSub sep value).map (fun i => (value.take i, value.drop (i + sep.length)))

/-- The spec half of a `@param` remainder: the text before the first
literal `" - "`, or the whole remainder without one. -/
def paramSpecOf (value : Str) : Str :=
  match chopFirstSub (str " - ") value with
  | none => value
  | some (a, _) => a

/-- The description half of a `@param` remainder: the trimmed text
after the first literal `" - "`, empty without one. -/
def paramDescOf (value : Str) : Str :=
  match chopFirstSub (str " - ") value with
  | none => []
  | some (_, b) => goTrim b

/-- `parseParameter`: the `@param` grammar.  The remainder splits at
the first literal `" - "` into spec and description; the spec splits
into whitespace-separated tokens; fewer than two tokens discard the
tag; token 1 is a direction when it matches IN/OUT/INOUT
case-insensitively, otherwise the direction defaults to IN and token 1
is the type. -/
def parseParameter (value : Str) : Option ParameterDoc :=
  match fieldsGo (goTrim (paramSpecOf value)) with
  | [] => none
  | [_] => none
  | t0 :: t1 :: rest =>
    if upperStr t1 = str "IN" ∨ upperStr t1 = str "OUT" ∨ upperStr t1 = str "INOUT" then
      some { Name := t0, Direction := upperStr t1, Type' := rest.headD [],
             Description := paramDescOf value }
    else
      some { Name := t0, Direction := str "IN", Type' := t1,
             Description := paramDescOf value }

/-- `parseTag`: one `@tag value` line updating the document record. -/
def parseTag (line : Str) (doc : DocComment) : DocComment :=
  let pieces :=
    match chopFirstSub (str " ") line with
    | none => (line, ([] : Str))
    | some (a, b) => (a, goTrim b)
  let tag := pieces.1
  let value := pieces.2
  if tag = str "@package" then { doc with Package := value }
  else if tag = str "@summary" then { doc with Summary := value }
  else if tag = str "@description" then { doc with Description := value }
  else if tag = str "@author" then { doc with Author := value }
  else if tag = str "@created" then { doc with Created := value }
  else if tag = str "@param" then
    match parseParameter value with
    | some p => { doc with Parameters := doc.Parameters ++ [p] }
    | none => doc
  else if tag = str "@return" then { doc with Return := value }
  else if tag = str "@tag" then { doc with Tags := doc.Tags ++ [value] }
  else if tag = str "@deprecated" then
    { doc with Deprecated := true, DeprecationNote := value }
  else doc

/-- `extractCommentBlock`: the capture of the leftmost
`(?s)/\*\*\s*(.*?)\s*\*/` match, then each line trimmed and stripped of
one leading `*`.  The leftmost match opens at the first `/**` and, with
the dot-all shortest capture, closes at the first viable `*/`; the
greedy whitespace groups strip the capture's surrounding whitespace. -/
def extractCommentBlock (source : Str) : Str :=
  match findSub (str "/**") source with
  | none => []
  | some i =>
    let rest := source.drop (i + 3)
    match findSub (str "*/") rest with
    | none => []
    | some _ =>
      let s := rest.dropWhile isSpaceRe
      match findSub (str "*/") s with
      | none => []
      | some j =>
        let block := dropTrailRe (s.take j)
        joinSep (str "\n")
          ((splitOnChar '\n' block).map (fun line =>
            let l := goTrim line
            goTrim (if leadsWith (str "*") l then l.drop 1 else l)))

/-- `parser.Parse`: `(document, error)`.  The Go function returns a nil
error on every path; a missing or blank comment block yields a nil
document, not an error. -/
def Parse (sourceCode : Str) : Option DocComment × Option Str :=
  if extractCommentBlock sourceCode = [] then (none, none)
  else
    (some ((splitOnChar '\n' (extractCommentBlock sourceCode)).foldl
      (fun d line =>
        let l := goTrim line
        if l = [] then d
        else if leadsWith (str "@") l then parseTag l d
        else d)
      ({ } : DocComment)), none)

/-! ## Object Assembler (`parseGXExportFile`, xpz extractor)

The extractor decodes each object's parts with `encoding/xml`; a part
is its type GUID, its `Source` inner text and its `Variable` elements,
each with a `Name` attribute and property name/value pairs (none of
which the decoder trims). -/

/-- `GXProperty2`. -/
structure GXProperty2 where
  Name : Str := []
  Value : Str := []
deriving DecidableEq, Repr

/-- `GXVariable`. -/
structure GXVariable where
  Name : Str := []
  Properties : List GXProperty2 := []
deriving DecidableEq, Repr

/-- `GXPart` (`Type` is `ptype`: Lean reserves the Go field name). -/
structure GXPart where
  ptype : Str := []
  Source : Str := []
  Variables : List GXVariable := []
deriving DecidableEq, Repr

/-- The rules-part GUID `GXPartRules`. -/
def GXPartRules : Str := str "9b0a32a3-de6d-4be1-a4dd-1b85d3741534"

/-- The source-code-part GUID `GXPartSourceCode`. -/
def GXPartSourceCode : Str := str "528d1c06-a9c2-420d-bd35-21dca83f12ff"

/-- The variables-part GUID. -/
def GXPartVariables : Str := str "e4c4ade7-53f0-4a56-bdfd-843735b66f47"

/-- `extractProcedureSource`: the trimmed source of the first
source-code part. -/
def extractProcedureSource (parts : List GXPart) : Str :=
  match parts.find? (fun p => p.ptype = GXPartSourceCode) with
  | some p => goTrim p.Source
  | none => []

/-- `extractParmSignature`: the trimmed source of the first rules part,
with a literal leading `Parm(` replaced by the procedure name. -/
def extractParmSignature (parts : List GXPart) (procedureName : Str) : Str :=
  match parts.find? (fun p => p.ptype = GXPartRules) with
  | none => []
  | some p =>
    let signature := goTrim p.Source
    if leadsWith (str "Parm(") signature then
      procedureName ++ str "(" ++ signature.drop 5
    else signature

/-- `parseParmParameters`: parameters out of a `Parm()` signature
string, by the extractor's simpler colon-split (no regular
expression). -/
def parseParmParameters (parmSignature : Str) : List ParameterDoc :=
  if parmSignature = [] then []
  else
    match idxOf '(' parmSignature, lastIdxOf ')' parmSignature with
    | some start, some stop =>
      if stop ≤ start then []
      else
        let paramsStr := (parmSignature.drop (start + 1)).take (stop - start - 1)
        if goTrim paramsStr = [] then []
        else
          (splitOnChar ',' paramsStr).filterMap (fun part =>
            let p := goTrim part
            if p = [] then none
            else
              match chopFirst ':' p with
              | none => none
              | some (d, nm) =>
                let name0 := goTrim nm
                let name := if leadsWith (str "&") name0 then name0.drop 1 else name0
                some { Name := name, Direction := upperStr (goTrim d) })
    | _, _ => []

/-- The inline type cleaning of `enrichParametersWithVariableInfo`
(unlike `cleanType` it has no `Attribute:` exception and trims only in
the colon branch). -/
def inlineCleanP (v : Str) : Str :=
  match chopFirst ':' v with
  | none => v
  | some (_, post) =>
    match chopFirst ',' (goTrim post) with
    | none => goTrim post
    | some (a, _) => goTrim a

/-- The `(Description, Type)` scan of
`enrichParametersWithVariableInfo` over one variable's properties. -/
def enrichScanP (props : List GXProperty2) : Str × Str :=
  props.foldl
    (fun acc pr =>
      if pr.Name = str "Description" then (pr.Value, acc.2)
      else if pr.Name = str "ATTCUSTOMTYPE" then (acc.1, inlineCleanP pr.Value)
      else acc)
    ([], [])

/-- The variable map of `enrichParametersWithVariableInfo`, keyed by
the raw `Name` attribute. -/
def buildVarMapP (vlist : List GXVariable) : List (Str × Str × Str) :=
  vlist.foldl (fun m v => upsert m v.Name (enrichScanP v.Properties)) []

/-- The variables of the first variables part, or none. -/
def variablesOf (parts : List GXPart) : List GXVariable :=
  match parts.find? (fun p => p.ptype = GXPartVariables) with
  | some p => p.Variables
  | none => []

/-- The per-parameter fill of `enrichParametersWithVariableInfo`
(description first, then type — only empty fields are written). -/
def enrichOneP (m : List (Str × Str × Str)) (p : ParameterDoc) : ParameterDoc :=
  match lookupMeta m p.Name with
  | none => p
  | some info =>
    { p with
      Description := if p.Description = [] then info.1 else p.Description,
      Type' := if p.Type' = [] then info.2 else p.Type' }

/-- `enrichParametersWithVariableInfo`. -/
def enrichParametersWithVariableInfo (params : List ParameterDoc)
    (parts : List GXPart) : List ParameterDoc :=
  if params = [] then params
  else if variablesOf parts = [] then params
  else params.map (enrichOneP (buildVarMapP (variablesOf parts)))

/-- The documentation value after the annotation-parsing step of
`parseGXExportFile` for a procedure: `parser.Parse` runs only when the
extracted source code is non-empty, and its result is kept only when
the error is nil. -/
def docAfterParse (parts : List GXPart) : Option DocComment :=
  if extractProcedureSource parts = [] then none
  else
    match Parse (extractProcedureSource parts) with
    | (d, none) => d
    | (_, some _) => none

/-- The documentation-reconciliation step of `parseGXExportFile` for a
procedure object: synthesize or graft resolver parameters when the
annotation pass produced nothing usable. -/
def assembleDocumentation (parts : List GXPart) (objName : Str) : Option DocComment :=
  if docAfterParse parts = none ∧ extractParmSignature parts objName ≠ [] then
    some { IsAutoGenerated := true,
           Parameters :=
             enrichParametersWithVariableInfo
               (parseParmParameters (extractParmSignature parts objName)) parts,
           Tags := [] }
  else
    match docAfterParse parts with
    | some d =>
      if d.Parameters = [] ∧ extractParmSignature parts objName ≠ [] then
        some { d with
               Parameters :=
                 enrichParametersWithVariableInfo
                   (parseParmParameters (extractParmSignature parts objName)) parts }
      else some d
    | none => none

/-! ## The repository's test vectors

Each `example` replays one case of `signature_test.go` or
`parser_test.go` against the embedding. -/

example : cleanType (str "bas:Boolean") = str "Boolean" := by decide
example : cleanType (str "sdt:Messages, GeneXus.Common") = str "Messages" := by decide
example : cleanType (str "Attribute:UserId") = str "Attribute:UserId" := by decide
example : cleanType (str "a:b:c") = str "b:c" := by decide
example : cleanType (str "b:c") = str "c" := by decide

example :
    ExtractProcedureSignature
      { rulesSource := some (str "Parm(in:&UserID, out:&UserName);") } (str "GetUser") =
    { Parameters := some [{ Name := str "UserID", Direction := str "IN" },
                          { Name := str "UserName", Direction := str "OUT" }],
      RawSignature := str "GetUser(in:&UserID, out:&UserName);",
      ExtractionMode := str "ParmRule" } := by decide

example :
    ExtractProcedureSignature
      { variablesPart := some
          [⟨str "UserID", [(str "IsParm", str "True"), (str "Name", str "UserID"),
                           (str "ATTCUSTOMTYPE", str "bas:Numeric"),
                           (str "Description", str "User identifier")]⟩,
           ⟨str "UserName", [(str "IsParm", str "True"), (str "Name", str "UserName"),
                             (str "ATTCUSTOMTYPE", str "bas:Character")]⟩] }
      (str "GetUser") =
    { Parameters := some
        [{ Name := str "UserID", Direction := str "IN", Type' := str "Numeric",
           Description := str "User identifier" },
         { Name := str "UserName", Direction := str "IN", Type' := str "Character" }],
      RawSignature := str "GetUser(in:&UserID, in:&UserName);",
      ExtractionMode := str "IsParm" } := by decide

example :
    ExtractProcedureSignature {} (str "DoSomething") =
    { Parameters := some [], RawSignature := str "DoSomething();",
      ExtractionMode := str "None" } := by decide

example :
    ((parseParmString (str "Parm();") (str "DoSomething")).Parameters.getD []).length
      = 0 := by decide

example :
    ((parseParmString (str "Parm(in:&X, out:&Y, inout:&Z);")
        (str "Process")).Parameters.getD []).length = 3 := by decide

example :
    ((parseParmString (str "parm(in:&VagId,out:&Messages,out:&Sucesso);")
        (str "prAlterarSituacaoVaga")).Parameters.getD []).length = 3 := by decide

example :
    EnrichWithVariableMetadata
      [{ Name := str "UserID", Direction := str "IN" },
       { Name := str "IsActive", Direction := str "OUT" }]
      { variablesPart := some
          [⟨str "UserID", [(str "Description", str "User identifier"),
                           (str "ATTCUSTOMTYPE", str "bas:Numeric")]⟩,
           ⟨str "IsActive", [(str "Description", str "Active status"),
                             (str "ATTCUSTOMTYPE", str "bas:Boolean")]⟩] } =
    [{ Name := str "UserID", Direction := str "IN", Type' := str "Numeric",
       Description := str "User identifier" },
     { Name := str "IsActive", Direction := str "OUT", Type' := str "Boolean",
       Description := str "Active status" }] := by decide

example :
    parseParameter (str "OrderData INOUT sdtOrder - Order information to be processed") =
    some { Name := str "OrderData", Direction := str "INOUT", Type' := str "sdtOrder",
           Description := str "Order information to be processed" } := by decide

example :
    parseParameter (str "CustomerID Numeric - Customer identifier") =
    some { Name := str "CustomerID", Direction := str "IN", Type' := str "Numeric",
           Description := str "Customer identifier" } := by decide

example :
    parseParameter (str "Status OUT Boolean") =
    some { Name := str "Status", Direction := str "OUT", Type' := str "Boolean" } := by
  decide

example : (Parse (str "&User.Load(&UserID)")).1 = none := by decide

/-! The `$`-reference semantics of `ReplaceAllString`'s replacement
template, checked against Go's `Expand` algorithm: `$1User` is one
reference name (neither numeric nor a named group, so empty), `$$` is
a literal `$`, `$1` is the match's capture, `${0}` the whole match,
and a malformed reference keeps the raw `$`. -/

example : (parseParmString (str "Parm(in:&X);") (str "Get$1User")).RawSignature =
    str "Get(in:&X);" := by decide

example : (parseParmString (str "Parm(in:&X);") (str "Get$$User")).RawSignature =
    str "Get$User(in:&X);" := by decide

example : (parseParmString (str "Parm(in:&X);") (str "P$1")).RawSignature =
    str "Pin:&X(in:&X);" := by decide

example : expandRepl (str "Parm(in:&X)") (str "in:&X") (str "A${0}B") =
    str "AParm(in:&X)B" := by decide

example : expandRepl (str "g0") (str "g1") (str "P$(x)") = str "P$(x)" := by decide

example : expandRepl (str "g0") (str "g1") (str "P$2-Q") = str "P-Q" := by decide

/-! ## Helper lemmas -/

/-- Every character `takeWhile` keeps satisfies the predicate. -/
theorem all_takeWhile_self (p : Char → Bool) (l : Str) :
    (l.takeWhile p).all p = true := by
  induction l with
  | nil => rfl
  | cons c t ih =>
    rw [List.takeWhile_cons]
    by_cases h : p c = true
    · simp [h, ih]
    · simp [h]

/-- A case-insensitive prefix match fixes the lower-cased head of the
text to the lower-cased needle. -/
theorem ciLeadsWith_take (dir s : Str) (h : ciLeadsWith dir s = true) :
    lowerStr (s.take dir.length) = lowerStr dir := by
  induction dir generalizing s with
  | nil => simp [lowerStr]
  | cons p ps ih =>
    cases s with
    | nil => simp [ciLeadsWith] at h
    | cons c cs =>
      simp only [ciLeadsWith, Bool.and_eq_true, decide_eq_true_eq] at h
      have h2 := ih cs h.2
      simp only [lowerStr] at h2 ⊢
      simp only [List.length_cons, List.take_succ_cons, List.map_cons]
      rw [← h.1, h2]

/-- A successful one-alternative `paramRegex` match decomposes the
segment into direction, whitespace, colon, whitespace, ampersand and a
non-empty name. -/
theorem paramMatchDir_shape (dir s d n : Str)
    (h : paramMatchDir dir s = some (d, n)) :
    d = s.take dir.length ∧ ciLeadsWith dir s = true ∧ n ≠ [] ∧
    ∃ ws1 ws2, ws1.all isSpaceRe = true ∧ ws2.all isSpaceRe = true ∧
      s = d ++ ws1 ++ [':'] ++ ws2 ++ ['&'] ++ n := by
  unfold paramMatchDir at h
  split at h
  case isFalse => simp at h
  case isTrue hci =>
    split at h
    case h_1 => simp at h
    case h_2 c rest2 heq =>
      split at h
      case isFalse => simp at h
      case isTrue hc =>
        split at h
        case h_1 => simp at h
        case h_2 a n2 heq2 =>
          split at h
          case isFalse => simp at h
          case isTrue hcond =>
            injection h with h'
            injection h' with hd hn
            subst hd hn hc
            simp only [Bool.and_eq_true, decide_eq_true_eq, Bool.not_eq_true'] at hcond
            obtain ⟨⟨ha, hne⟩, hall⟩ := hcond
            subst ha
            refine ⟨rfl, hci, ?_, (s.drop dir.length).takeWhile isSpaceRe,
              rest2.takeWhile isSpaceRe, all_takeWhile_self _ _, all_takeWhile_self _ _,
              ?_⟩
            · intro hnil; rw [hnil] at hne; simp [List.isEmpty] at hne
            · have e1 : s = s.take dir.length ++ s.drop dir.length :=
                (List.take_append_drop _ _).symm
              have e2 : s.drop dir.length =
                  (s.drop dir.length).takeWhile isSpaceRe ++ (':' :: rest2) := by
                conv_lhs => rw [← List.takeWhile_append_dropWhile (p := isSpaceRe)
                  (l := s.drop dir.length)]
                rw [heq]
              have e3 : rest2 = rest2.takeWhile isSpaceRe ++ ('&' :: n2) := by
                conv_lhs => rw [← List.takeWhile_append_dropWhile (p := isSpaceRe)
                  (l := rest2)]
                rw [heq2]
              conv_lhs => rw [e1, e2, e3]
              simp [List.append_assoc]

/-- A successful `paramRegex` match: the direction group is one of the
three alternatives, and the segment has the `direction:&name` shape. -/
theorem paramMatch_shape (s d n : Str) (h : paramMatch s = some (d, n)) :
    (lowerStr d = str "in" ∨ lowerStr d = str "out" ∨ lowerStr d = str "inout") ∧
    n ≠ [] ∧
    ∃ ws1 ws2, ws1.all isSpaceRe = true ∧ ws2.all isSpaceRe = true ∧
      s = d ++ ws1 ++ [':'] ++ ws2 ++ ['&'] ++ n := by
  unfold paramMatch at h
  split at h
  case h_1 r heq =>
    injection h with h'
    subst h'
    obtain ⟨hd, hci, hne, hws⟩ := paramMatchDir_shape _ _ _ _ heq
    subst hd
    exact ⟨Or.inl ((ciLeadsWith_take _ _ hci).trans (by decide)), hne, hws⟩
  case h_2 hmiss =>
    split at h
    case h_1 r heq =>
      injection h with h'
      subst h'
      obtain ⟨hd, hci, hne, hws⟩ := paramMatchDir_shape _ _ _ _ heq
      subst hd
      exact ⟨Or.inr (Or.inl ((ciLeadsWith_take _ _ hci).trans (by decide))), hne, hws⟩
    case h_2 hmiss2 =>
      obtain ⟨hd, hci, hne, hws⟩ := paramMatchDir_shape _ _ _ _ h
      subst hd
      exact ⟨Or.inr (Or.inr ((ciLeadsWith_take _ _ hci).trans (by decide))), hne, hws⟩

/-- A matching segment contributes exactly the trimmed name and the
upper-cased direction. -/
theorem segParam_of_match (seg d n : Str) (h : paramMatch (goTrim seg) = some (d, n)) :
    segParam seg = some { Name := goTrim n, Direction := upperStr d } := by
  unfold segParam
  by_cases he : goTrim seg = []
  · rw [he] at h; simp [paramMatch, paramMatchDir, ciLeadsWith] at h
  · simp only [he, if_false, h]

/-- A segment without a `paramRegex` match contributes nothing. -/
theorem segParam_of_no_match (seg : Str) (h : paramMatch (goTrim seg) = none) :
    segParam seg = none := by
  unfold segParam
  by_cases he : goTrim seg = []
  · simp [he]
  · simp only [he, if_false, h]

/-- When the first strategy's parameter slice is non-nil, the resolver
returns it with mode `ParmRule`. -/
theorem parmRule_branch (obj : ObjNode) (pn : Str)
    (h : (extractFromParmRule obj pn).Parameters ≠ none) :
    ExtractProcedureSignature obj pn =
      { extractFromParmRule obj pn with ExtractionMode := str "ParmRule" } := by
  unfold ExtractProcedureSignature
  rw [if_pos h]

/-- When only the second strategy's parameter slice is non-nil, the
resolver returns it with mode `IsParm`. -/
theorem isParm_branch (obj : ObjNode) (pn : Str)
    (h1 : (extractFromParmRule obj pn).Parameters = none)
    (h2 : (extractFromIsParmVariables obj pn).Parameters ≠ none) :
    ExtractProcedureSignature obj pn =
      { extractFromIsParmVariables obj pn with ExtractionMode := str "IsParm" } := by
  unfold ExtractProcedureSignature
  rw [if_neg (fun hh => hh h1), if_pos h2]

/-- When both strategies fail, the resolver returns the empty
signature with mode `None`. -/
theorem none_branch (obj : ObjNode) (pn : Str)
    (h1 : (extractFromParmRule obj pn).Parameters = none)
    (h2 : (extractFromIsParmVariables obj pn).Parameters = none) :
    ExtractProcedureSignature obj pn =
      { Parameters := some [], RawSignature := pn ++ str "();",
        ExtractionMode := str "None" } := by
  unfold ExtractProcedureSignature
  rw [if_neg (fun hh => hh h1), if_neg (fun hh => hh h2)]

/-- The IsParm strategy yields either the zero signature or a
non-empty parameter list with its rebuilt call text. -/
theorem isParm_cases (obj : ObjNode) (pn : Str) :
    (extractFromIsParmVariables obj pn).Parameters = none ∨
    ∃ p ps, extractFromIsParmVariables obj pn =
      { Parameters := some (p :: ps),
        RawSignature := buildRawSignature pn (p :: ps), ExtractionMode := [] } := by
  unfold extractFromIsParmVariables
  cases obj.variablesPart with
  | none => exact Or.inl rfl
  | some vars =>
    cases hv : isParmParams vars with
    | nil => simp [hv, emptySig]
    | cons p ps =>
      right
      exact ⟨p, ps, by simp [hv]⟩

/-- `parseParmString` reduced to its three outcomes: no match, a blank
argument list, or the per-segment parameter collection with the
normalized raw text. -/
theorem parseParm_cases (source pn : Str) :
    (parmFindList (stripCommentLines source) = none ∧
      parseParmString source pn = emptySig) ∨
    ∃ paramsStr, parmFindList (stripCommentLines source) = some paramsStr ∧
      ((goTrim paramsStr = [] ∧ parseParmString source pn =
          { Parameters := some [], RawSignature := pn ++ str "();",
            ExtractionMode := [] }) ∨
       (goTrim paramsStr ≠ [] ∧ parseParmString source pn =
          { Parameters :=
              if (splitOnChar ',' paramsStr).filterMap segParam = [] then none
              else some ((splitOnChar ',' paramsStr).filterMap segParam),
            RawSignature := goTrim (commaSpaceAll (colonSpaceAll (dirReplaceAll
              (replaceParmAll (stripCommentLines source)
                (pn ++ str "(" ++ paramsStr ++ str ")"))))),
            ExtractionMode := [] })) := by
  unfold parseParmString
  cases hf : parmFindList (stripCommentLines source) with
  | none => exact Or.inl ⟨rfl, rfl⟩
  | some paramsStr =>
    refine Or.inr ⟨paramsStr, rfl, ?_⟩
    by_cases ht : goTrim paramsStr = []
    · exact Or.inl ⟨ht, by dsimp only; rw [if_pos ht]⟩
    · exact Or.inr ⟨ht, by dsimp only; rw [if_neg ht]⟩

/-- `cleanType` fixes every trimmed string that has no colon or keeps
the `Attribute:` marker. -/
theorem cleanType_fixed (s : Str) (htrim : goTrim s = s)
    (hcond : chopFirst ':' s = none ∨ leadsWith (str "Attribute:") s = true) :
    cleanType s = s := by
  unfold cleanType
  rw [htrim]
  rcases hcond with hc | ha
  · rw [hc]
  · cases hcc : chopFirst ':' s with
    | none => rfl
    | some pr =>
      obtain ⟨pre, post⟩ := pr
      dsimp only
      rw [if_pos ha]

/-- Field-level facts about one enrichment step of
`EnrichWithVariableMetadata`. -/
theorem enrichOne_facts (m : List (Str × Str × Str)) (p : ParameterDoc) :
    (enrichOne m p).Name = p.Name ∧ (enrichOne m p).Direction = p.Direction ∧
    (p.Type' ≠ [] → (enrichOne m p).Type' = p.Type') ∧
    (p.Description ≠ [] → (enrichOne m p).Description = p.Description) ∧
    (lookupMeta m p.Name = none → enrichOne m p = p) := by
  unfold enrichOne
  cases hl : lookupMeta m p.Name with
  | none => exact ⟨rfl, rfl, fun _ => rfl, fun _ => rfl, fun _ => rfl⟩
  | some meta =>
    refine ⟨rfl, rfl, fun ht => ?_, fun hd => ?_,
      fun hn => Option.noConfusion hn⟩
    · dsimp only; rw [if_neg ht]
    · dsimp only; rw [if_neg hd]

/-- Field-level facts about one enrichment step of
`enrichParametersWithVariableInfo`. -/
theorem enrichOneP_facts (m : List (Str × Str × Str)) (p : ParameterDoc) :
    (enrichOneP m p).Name = p.Name ∧ (enrichOneP m p).Direction = p.Direction ∧
    (p.Type' ≠ [] → (enrichOneP m p).Type' = p.Type') ∧
    (p.Description ≠ [] → (enrichOneP m p).Description = p.Description) ∧
    (lookupMeta m p.Name = none → enrichOneP m p = p) := by
  unfold enrichOneP
  cases hl : lookupMeta m p.Name with
  | none => exact ⟨rfl, rfl, fun _ => rfl, fun _ => rfl, fun _ => rfl⟩
  | some meta =>
    refine ⟨rfl, rfl, fun ht => ?_, fun hd => ?_,
      fun hn => Option.noConfusion hn⟩
    · dsimp only; rw [if_neg ht]
    · dsimp only; rw [if_neg hd]

/-! ## The claims -/

/-- C1: for a rules source whose comment-stripped text contains a
`parm(...)` call with a non-blank argument list and at least one
segment matching the `direction:&name` pattern, the ParmRule strategy
yields exactly one `ParameterDoc` per matching comma segment, in
source order (the `filterMap` of the segment parser); a matching
segment has exactly the `direction:&name` shape and contributes the
upper-cased direction and the name with its `&` sigil stripped, and a
segment without a match is silently dropped. -/
theorem parm_rule_segment_parameters (source procedureName paramsStr : Str)
    (hfind : parmFindList (stripCommentLines source) = some paramsStr)
    (hne : goTrim paramsStr ≠ [])
    (hmatched : (splitOnChar ',' paramsStr).filterMap segParam ≠ []) :
    (parseParmString source procedureName).Parameters =
      some ((splitOnChar ',' paramsStr).filterMap segParam) ∧
    (∀ seg d n, paramMatch (goTrim seg) = some (d, n) →
      segParam seg = some { Name := goTrim n, Direction := upperStr d } ∧
      (lowerStr d = str "in" ∨ lowerStr d = str "out" ∨ lowerStr d = str "inout") ∧
      n ≠ [] ∧
      ∃ ws1 ws2, ws1.all isSpaceRe = true ∧ ws2.all isSpaceRe = true ∧
        goTrim seg = d ++ ws1 ++ [':'] ++ ws2 ++ ['&'] ++ n) ∧
    (∀ seg, paramMatch (goTrim seg) = none → segParam seg = none) := by
  refine ⟨?_, fun seg d n h => ?_, fun seg h => segParam_of_no_match seg h⟩
  · unfold parseParmString
    rw [hfind]
    simp only [hne, if_false, hmatched, ite_false]
  · obtain ⟨hdir, hn, hws⟩ := paramMatch_shape _ _ _ h
    exact ⟨segParam_of_match seg d n h, hdir, hn, hws⟩

/-- C1 witness: the two-parameter rules source of the repository's own
test, evaluated through the theorem. -/
theorem parm_rule_segment_parameters_witness :
    (parseParmString (str "Parm(in:&UserID, out:&UserName);")
        (str "GetUser")).Parameters =
      some ((splitOnChar ',' (str "in:&UserID, out:&UserName")).filterMap segParam) :=
  (parm_rule_segment_parameters (str "Parm(in:&UserID, out:&UserName);")
    (str "GetUser") (str "in:&UserID, out:&UserName")
    (by decide) (by decide) (by decide)).1

/-- A rules source with text but no `parm(...)` match, next to a
variable that qualifies for the IsParm fallback. -/
def c2Obj : ObjNode :=
  { rulesSource := some (str "nothing here"),
    variablesPart := some
      [⟨str "X", [(str "IsParm", str "True"), (str "Name", str "UserID")]⟩] }

/-- C2 counterexample: the rules part's source is present and, after
comment stripping, contains no `parm(...)` match — yet the resolver
does run the IsParm-variable strategy and returns mode `IsParm`. -/
theorem isParm_attempted_counterexample :
    getRulesSource c2Obj ≠ [] ∧
    parmFindList (stripCommentLines (getRulesSource c2Obj)) = none ∧
    (ExtractProcedureSignature c2Obj (str "P")).ExtractionMode = str "IsParm" := by
  decide

/-- C2 amended: when the rules source is present but contains no
`parm(...)` match after comment stripping, the resolver falls through
to the IsParm-variable strategy (the strategy is attempted whenever
the ParmRule strategy produced a nil parameter slice, not only when
the source was absent). -/
theorem isParm_fallback_on_unmatched_rules (obj : ObjNode) (pn : Str)
    (h1 : getRulesSource obj ≠ [])
    (h2 : parmFindList (stripCommentLines (getRulesSource obj)) = none) :
    ExtractProcedureSignature obj pn =
      (if (extractFromIsParmVariables obj pn).Parameters ≠ none then
        { extractFromIsParmVariables obj pn with ExtractionMode := str "IsParm" }
      else
        { Parameters := some [], RawSignature := pn ++ str "();",
          ExtractionMode := str "None" }) := by
  have hpr : (extractFromParmRule obj pn).Parameters = none := by
    unfold extractFromParmRule
    rw [if_neg h1]
    rcases parseParm_cases (getRulesSource obj) pn with ⟨_, hp⟩ | ⟨ps', hf, _⟩
    · rw [hp]; rfl
    · rw [hf] at h2; exact Option.noConfusion h2
  by_cases h3 : (extractFromIsParmVariables obj pn).Parameters = none
  · rw [none_branch obj pn hpr h3, if_neg (fun hh => hh h3)]
  · rw [isParm_branch obj pn hpr h3, if_pos h3]

/-- C2 amended witness: the fallback equation evaluated at the
counterexample object. -/
theorem isParm_fallback_on_unmatched_rules_witness :
    ExtractProcedureSignature c2Obj (str "P") =
      (if (extractFromIsParmVariables c2Obj (str "P")).Parameters ≠ none then
        { extractFromIsParmVariables c2Obj (str "P") with
            ExtractionMode := str "IsParm" }
      else
        { Parameters := some [], RawSignature := str "P" ++ str "();",
          ExtractionMode := str "None" }) :=
  isParm_fallback_on_unmatched_rules c2Obj (str "P") (by decide) (by decide)

/-- C4 counterexample: `cleanType` is not idempotent — a second colon
survives the first application and is stripped by the next one. -/
theorem cleanType_not_idempotent :
    cleanType (cleanType (str "a:b:c")) ≠ cleanType (str "a:b:c") := by decide

/-- C4 amended: the three cited equalities hold, and `cleanType` is
idempotent at every input whose output is trimmed and either free of
`:` or marked `Attribute:` (which covers all three examples) — but not
at every input (see the counterexample). -/
theorem cleanType_examples_and_conditional_idempotence :
    cleanType (str "bas:Boolean") = str "Boolean" ∧
    cleanType (str "sdt:Messages, GeneXus.Common") = str "Messages" ∧
    cleanType (str "Attribute:UserId") = str "Attribute:UserId" ∧
    cleanType (cleanType (str "bas:Boolean")) = cleanType (str "bas:Boolean") ∧
    cleanType (cleanType (str "Attribute:UserId")) =
      cleanType (str "Attribute:UserId") ∧
    ∀ x, goTrim (cleanType x) = cleanType x →
      (chopFirst ':' (cleanType x) = none ∨
        leadsWith (str "Attribute:") (cleanType x) = true) →
      cleanType (cleanType x) = cleanType x :=
  ⟨by decide, by decide, by decide, by decide, by decide,
   fun x htrim hcond => cleanType_fixed (cleanType x) htrim hcond⟩

/-- C5: for a procedure object, when annotation parsing produced no
document and the extractor's `Parm` signature parses to at least one
parameter, the assembler synthesizes a `DocComment` with
`IsAutoGenerated` set and the enriched parameters; when a document
exists with zero parameters, it grafts the enriched parameters onto it
and leaves every other field unchanged. -/
theorem assembler_synthesizes_and_grafts (parts : List GXPart) (objName : Str)
    (d : DocComment) :
    (docAfterParse parts = none →
      parseParmParameters (extractParmSignature parts objName) ≠ [] →
      assembleDocumentation parts objName =
        some { IsAutoGenerated := true, Tags := [],
               Parameters :=
                 enrichParametersWithVariableInfo
                   (parseParmParameters (extractParmSignature parts objName))
                   parts }) ∧
    (docAfterParse parts = some d →
      d.Parameters = [] →
      parseParmParameters (extractParmSignature parts objName) ≠ [] →
      assembleDocumentation parts objName =
        some { d with
               Parameters :=
                 enrichParametersWithVariableInfo
                   (parseParmParameters (extractParmSignature parts objName))
                   parts }) := by
  constructor
  · intro hdoc hp
    have hsig : extractParmSignature parts objName ≠ [] := by
      intro hs
      rw [hs] at hp
      exact hp rfl
    unfold assembleDocumentation
    rw [if_pos ⟨hdoc, hsig⟩]
  · intro hdoc hzero hp
    have hsig : extractParmSignature parts objName ≠ [] := by
      intro hs
      rw [hs] at hp
      exact hp rfl
    unfold assembleDocumentation
    rw [if_neg (fun hcon => by rw [hdoc] at hcon; exact Option.noConfusion hcon.1)]
    rw [hdoc]
    dsimp only
    rw [if_pos ⟨hzero, hsig⟩]

/-- A procedure with only a rules part: no source code, so no
annotation document. -/
def c5Parts1 : List GXPart := [{ ptype := GXPartRules, Source := str "Parm(in:&A);" }]

/-- A procedure whose source carries an annotation block with no
`@param` tag, next to the same rules part. -/
def c5Parts2 : List GXPart :=
  [{ ptype := GXPartRules, Source := str "Parm(in:&A);" },
   { ptype := GXPartSourceCode, Source := str "/**\n * @summary S\n */\ncode" }]

/-- C5 witness: both assembler branches evaluated at concrete parts
through the theorem. -/
theorem assembler_synthesizes_and_grafts_witness :
    assembleDocumentation c5Parts1 (str "P") =
      some { IsAutoGenerated := true, Tags := [],
             Parameters :=
               enrichParametersWithVariableInfo
                 (parseParmParameters (extractParmSignature c5Parts1 (str "P")))
                 c5Parts1 } ∧
    assembleDocumentation c5Parts2 (str "P") =
      some { ({ Summary := str "S" } : DocComment) with
             Parameters :=
               enrichParametersWithVariableInfo
                 (parseParmParameters (extractParmSignature c5Parts2 (str "P")))
                 c5Parts2 } :=
  ⟨(assembler_synthesizes_and_grafts c5Parts1 (str "P") {}).1 (by decide) (by decide),
   (assembler_synthesizes_and_grafts c5Parts2 (str "P") { Summary := str "S" }).2
     (by decide) (by decide) (by decide)⟩

/-- C6: neither enricher overwrites a non-empty `Type` or
`Description`; names and directions are never touched, and a parameter
whose name has no variable entry comes back unchanged — in both
`EnrichWithVariableMetadata` and `enrichParametersWithVariableInfo`. -/
theorem enrich_never_overwrites (params : List ParameterDoc) (obj : ObjNode)
    (parts : List GXPart) (i : Nat) (p : ParameterDoc)
    (hp : params[i]? = some p) :
    (∃ q, (EnrichWithVariableMetadata params obj)[i]? = some q ∧
      q.Name = p.Name ∧ q.Direction = p.Direction ∧
      (p.Type' ≠ [] → q.Type' = p.Type') ∧
      (p.Description ≠ [] → q.Description = p.Description) ∧
      (lookupMeta (varMapOf obj) p.Name = none → q = p)) ∧
    (∃ q, (enrichParametersWithVariableInfo params parts)[i]? = some q ∧
      q.Name = p.Name ∧ q.Direction = p.Direction ∧
      (p.Type' ≠ [] → q.Type' = p.Type') ∧
      (p.Description ≠ [] → q.Description = p.Description) ∧
      (lookupMeta (buildVarMapP (variablesOf parts)) p.Name = none → q = p)) := by
  constructor
  · unfold EnrichWithVariableMetadata varMapOf
    cases hv : obj.variablesPart with
    | none => exact ⟨p, hp, rfl, rfl, fun _ => rfl, fun _ => rfl, fun _ => rfl⟩
    | some vars =>
      obtain ⟨h1, h2, h3, h4, h5⟩ := enrichOne_facts (buildVarMap vars) p
      exact ⟨enrichOne (buildVarMap vars) p,
        by rw [List.getElem?_map, hp]; rfl, h1, h2, h3, h4, h5⟩
  · unfold enrichParametersWithVariableInfo
    by_cases hps : params = []
    · rw [hps] at hp; simp at hp
    · rw [if_neg hps]
      by_cases hvl : variablesOf parts = []
      · rw [if_pos hvl]
        refine ⟨p, hp, rfl, rfl, fun _ => rfl, fun _ => rfl, fun _ => rfl⟩
      · rw [if_neg hvl]
        obtain ⟨h1, h2, h3, h4, h5⟩ := enrichOneP_facts (buildVarMapP (variablesOf parts)) p
        exact ⟨enrichOneP (buildVarMapP (variablesOf parts)) p,
          by rw [List.getElem?_map, hp]; rfl, h1, h2, h3, h4, h5⟩

/-- A parameter whose type is already known. -/
def c6Param : ParameterDoc := { Name := str "A", Direction := str "IN", Type' := str "Kept" }

/-- A variables part declaring a different type for that parameter. -/
def c6Obj : ObjNode :=
  { variablesPart := some [⟨str "A", [(str "ATTCUSTOMTYPE", str "bas:Other")]⟩] }

/-- C6 witness: a parameter with a non-empty type keeps it through
both enrichers even though the variables part declares another. -/
theorem enrich_never_overwrites_witness :
    (∃ q, (EnrichWithVariableMetadata [c6Param] c6Obj)[0]? = some q ∧
      q.Name = c6Param.Name ∧ q.Direction = c6Param.Direction ∧
      (c6Param.Type' ≠ [] → q.Type' = c6Param.Type') ∧
      (c6Param.Description ≠ [] → q.Description = c6Param.Description) ∧
      (lookupMeta (varMapOf c6Obj) c6Param.Name = none → q = c6Param)) ∧
    (∃ q, (enrichParametersWithVariableInfo [c6Param] [])[0]? = some q ∧
      q.Name = c6Param.Name ∧ q.Direction = c6Param.Direction ∧
      (c6Param.Type' ≠ [] → q.Type' = c6Param.Type') ∧
      (c6Param.Description ≠ [] → q.Description = c6Param.Description) ∧
      (lookupMeta (buildVarMapP (variablesOf [])) c6Param.Name = none →
        q = c6Param)) :=
  enrich_never_overwrites [c6Param] c6Obj [] 0 c6Param rfl

/-- C7: the `@param` grammar — the remainder splits at the first
literal `" - "` (no separator gives an empty description); fewer than
two whitespace tokens discard the tag; token 0 is the name; a token 1
matching IN/OUT/INOUT case-insensitively becomes the direction with
token 2 (when present) the type, and otherwise the direction defaults
to IN with token 1 the type. -/
theorem param_tag_grammar (value : Str) :
    ((fieldsGo (goTrim (paramSpecOf value))).length < 2 →
      parseParameter value = none) ∧
    (∀ t0 t1 rest, fieldsGo (goTrim (paramSpecOf value)) = t0 :: t1 :: rest →
      parseParameter value =
        (if upperStr t1 = str "IN" ∨ upperStr t1 = str "OUT" ∨
            upperStr t1 = str "INOUT" then
          some { Name := t0, Direction := upperStr t1, Type' := rest.headD [],
                 Description := paramDescOf value }
        else
          some { Name := t0, Direction := str "IN", Type' := t1,
                 Description := paramDescOf value })) ∧
    (chopFirstSub (str " - ") value = none → paramDescOf value = []) := by
  refine ⟨?_, ?_, ?_⟩
  · intro hlen
    unfold parseParameter
    cases hf : fieldsGo (goTrim (paramSpecOf value)) with
    | nil => rfl
    | cons a l =>
      cases l with
      | nil => rfl
      | cons b l2 =>
        rw [hf] at hlen
        simp at hlen
        omega
  · intro t0 t1 rest hf
    unfold parseParameter
    rw [hf]
  · intro hnone
    unfold paramDescOf
    rw [hnone]

/-- C8: an object whose rules source consists only of comment lines
(each trimmed line starts with `//`) and whose variables yield no
IsParm parameter resolves to mode `None` with zero parameters. -/
theorem comment_only_rules_yields_none (obj : ObjNode) (pn : Str)
    (h1 : ∀ line ∈ splitOnChar '\n' (getRulesSource obj),
      leadsWith (str "//") (goTrim line) = true)
    (h2 : (extractFromIsParmVariables obj pn).Parameters = none) :
    ExtractProcedureSignature obj pn =
      { Parameters := some [], RawSignature := pn ++ str "();",
        ExtractionMode := str "None" } := by
  have hstrip : stripCommentLines (getRulesSource obj) = [] := by
    unfold stripCommentLines
    have hfil : (splitOnChar '\n' (getRulesSource obj)).filter
        (fun line => !leadsWith (str "//") (goTrim line)) = [] := by
      rw [List.filter_eq_nil_iff]
      intro a ha
      simp [h1 a ha]
    rw [hfil]
    rfl
  have hpr : (extractFromParmRule obj pn).Parameters = none := by
    unfold extractFromParmRule
    by_cases hs : getRulesSource obj = []
    · rw [if_pos hs]; rfl
    · rw [if_neg hs]
      unfold parseParmString
      rw [hstrip]
      rfl
  exact none_branch obj pn hpr h2

/-- An object whose rules source is one commented-out `Parm` line. -/
def c8Obj : ObjNode := { rulesSource := some (str "// Parm(in:&X);") }

/-- C8 witness: the commented-out `Parm(in:&X);` source resolves to
mode `None` through the theorem. -/
theorem comment_only_rules_yields_none_witness :
    ExtractProcedureSignature c8Obj (str "P") =
      { Parameters := some [], RawSignature := str "P" ++ str "();",
        ExtractionMode := str "None" } :=
  comment_only_rules_yields_none c8Obj (str "P") (by decide) (by decide)

/-- C9: every resolved signature has a present (never nil) parameter
sequence and a mode among `ParmRule`, `IsParm`, `None`; mode `None`
forces zero parameters and the raw text `<name>();`, and mode `IsParm`
carries at least one parameter. -/
theorem extract_signature_invariants (obj : ObjNode) (pn : Str) :
    (ExtractProcedureSignature obj pn).Parameters ≠ none ∧
    ((ExtractProcedureSignature obj pn).ExtractionMode = str "ParmRule" ∨
     (ExtractProcedureSignature obj pn).ExtractionMode = str "IsParm" ∨
     (ExtractProcedureSignature obj pn).ExtractionMode = str "None") ∧
    ((ExtractProcedureSignature obj pn).ExtractionMode = str "None" →
      (ExtractProcedureSignature obj pn).Parameters = some [] ∧
      (ExtractProcedureSignature obj pn).RawSignature = pn ++ str "();") ∧
    ((ExtractProcedureSignature obj pn).ExtractionMode = str "IsParm" →
      ∃ p ps, (ExtractProcedureSignature obj pn).Parameters = some (p :: ps)) := by
  by_cases h1 : (extractFromParmRule obj pn).Parameters = none
  · by_cases h2 : (extractFromIsParmVariables obj pn).Parameters = none
    · rw [none_branch obj pn h1 h2]
      exact ⟨by simp, Or.inr (Or.inr rfl), fun _ => ⟨rfl, rfl⟩,
        fun hm => absurd (show str "None" = str "IsParm" from hm) (by decide)⟩
    · rw [isParm_branch obj pn h1 h2]
      rcases isParm_cases obj pn with hc | ⟨p, ps, he⟩
      · exact absurd hc h2
      · rw [he]
        exact ⟨by simp, Or.inr (Or.inl rfl),
          fun hm => absurd (show str "IsParm" = str "None" from hm) (by decide),
          fun _ => ⟨p, ps, rfl⟩⟩
  · rw [parmRule_branch obj pn h1]
    exact ⟨by simpa using h1, Or.inl rfl,
      fun hm => absurd (show str "ParmRule" = str "None" from hm) (by decide),
      fun hm => absurd (show str "ParmRule" = str "IsParm" from hm) (by decide)⟩

/-- C10: the annotation parser never fails — the error component is
`none` on every input, and the absence of a usable annotation block
(missing, empty or whitespace-only) is signalled by a `none` document,
as on the concrete whitespace-only block. -/
theorem parse_never_errors :
    (∀ sourceCode, (Parse sourceCode).2 = none ∧
      ((Parse sourceCode).1 = none ↔ extractCommentBlock sourceCode = [])) ∧
    Parse (str "/**   */") = (none, none) ∧
    Parse (str "no comment here") = (none, none) := by
  refine ⟨fun s => ?_, by decide, by decide⟩
  unfold Parse
  by_cases hb : extractCommentBlock s = []
  · rw [if_pos hb]
    exact ⟨rfl, by simp [hb]⟩
  · rw [if_neg hb]
    exact ⟨rfl, by simp [hb]⟩

end GxDocGen
